import Mathlib

/-!
# go-fuse `fuse/mount.go`: mounting through the fusermount helper

A shallow embedding of `src/fuse/mount.go`.  Operating-system calls are
modelled by an explicit record of outcomes (`Sys`), and every function returns,
next to its Go results, the chronological list of OS calls it made.
-/

namespace Fuse

/-! ## Values of the Go runtime that the file manipulates -/

/-- An `os.Error` value.  `newError` is `os.NewError`, `errno` is `os.Errno`,
`syscallError` is `os.NewSyscallError`.  Go's `nil` error is `none` of
`Option OsError`. -/
inductive OsError where
  | newError (msg : String)
  | errno (e : Int)
  | syscallError (call : String) (e : Int)
  deriving DecidableEq, Repr

/-- An `*os.File`: a raw descriptor and a name.  Go's `nil` file is `none`. -/
structure File where
  fd : Int
  name : String
  deriving DecidableEq, Repr

/-- The function `os.NewFile`: a negative descriptor yields the nil file. -/
def NewFile (fd : Int) (name : String) : Option File :=
  if fd < 0 then none else some ⟨fd, name⟩

/-- The method `(*os.File).Fd`: the nil file answers -1. -/
def fileFd (f : Option File) : Int :=
  match f with
  | none => -1
  | some x => x.fd

/-- Rendering of an integer by the verb `%d` of `fmt.Sprintf`. -/
def fmtD (n : Int) : String := toString n

/-- One call into the operating system, as recorded in a trace. -/
inductive Event where
  | socketpair (domain typ proto : Int)
  | getwd
  | startProcess (name : String) (argv : List String) (env : List String)
      (files : List (Option Int))
  | wait (pid : Int) (options : Int)
  | recvmsg (fd : Int) (dataLen oobLen : Nat) (flags : Int)
  | close (fd : Int)
  | unmount (target : String) (flags : Int)
  | sleep (ns : Int)
  deriving DecidableEq, Repr

/-- Whether an event is a receive on a socket. -/
def Event.isRecvmsg : Event → Bool
  | .recvmsg _ _ _ _ => true
  | _ => false

/-- Whether an event is a direct unmount attempt. -/
def Event.isUnmount : Event → Bool
  | .unmount _ _ => true
  | _ => false

/-- What `syscall.Recvmsg` hands back: `n`, `oobn`, `recvflags`, the errno, and
the bytes of the control buffer after the call (`oob`; a position past the end
of the list reads as the zero byte that `make` put there). -/
structure RecvResult where
  n : Int
  oobn : Int
  recvflags : Int
  oob : List Nat
  errno : Int

/-- Outcomes of the operating-system calls made by `mount`.  `socketpair`
yields the two descriptors and an errno, `getwd` a directory and an error,
`startProcess` a process id and an error, `wait` an exit status (the value of
`w.ExitStatus()`) and an error. -/
structure Sys where
  socketpair : Int → Int → Int → (Int × Int) × Int
  getwd : String × Option OsError
  startProcess : String → List String → List String → List (Option Int) → Int × Option OsError
  wait : Int → Int → Int × Option OsError
  recvmsg : Int → Nat → Nat → Int → RecvResult

/-- Layout of `syscall.Cmsghdr` on the target platform: its size
(`syscall.SizeofCmsghdr`) and the byte offset of its `Type` field.  The
`syscall` package is not part of this repository, so both are parameters
(16 and 12 on linux/amd64, 12 and 8 on linux/386). -/
structure CmsgLayout where
  sizeofCmsghdr : Nat
  typeOffset : Nat

/-- The layout on linux/amd64: `Len uint64; Level int32; Type int32`. -/
def linuxAmd64 : CmsgLayout := ⟨16, 12⟩

/-- The byte at position `i` of a buffer. -/
def byteAt (buf : List Nat) (i : Nat) : Nat := buf.getD i 0 % 256

/-- The `int32` stored at byte offset `off` (little endian, two's complement):
the value of `*(*int32)(unsafe.Pointer(&buf[off]))`. -/
def readInt32 (buf : List Nat) (off : Nat) : Int :=
  let u := byteAt buf off + 256 * byteAt buf (off + 1) + 65536 * byteAt buf (off + 2)
    + 16777216 * byteAt buf (off + 3)
  if u < 2147483648 then (u : Int) else (u : Int) - 4294967296

/-! ## `Socketpair` -/

/-- The constant `syscall.AF_UNIX`. -/
def AF_UNIX : Int := 1
/-- The constant `syscall.SOCK_STREAM`. -/
def SOCK_STREAM : Int := 1
/-- The constant `syscall.SOCK_SEQPACKET`. -/
def SOCK_SEQPACKET : Int := 5

/-- Results of `Socketpair`. -/
structure SocketpairResult where
  l : Option File
  r : Option File
  err : Option OsError
  trace : List Event

/-- The function `Socketpair`.  The result `Except.error msg` is a Go panic
with message `msg`. -/
def Socketpair (sys : Sys) (network : String) : Except String SocketpairResult :=
  let kind : Option (Int × Int) :=
    if network = "unix" then some (AF_UNIX, SOCK_STREAM)
    else if network = "unixgram" then some (AF_UNIX, SOCK_SEQPACKET)
    else none
  match kind with
  | none => .error ("unknown network " ++ network)
  | some (domain, typ) =>
    let res := sys.socketpair domain typ 0
    let trace := [Event.socketpair domain typ 0]
    if res.2 ≠ 0 then
      .ok ⟨none, none, some (.syscallError "socketpair" res.2), trace⟩
    else
      .ok ⟨NewFile res.1.1 "socketpair-half1", NewFile res.1.2 "socketpair-half2", none, trace⟩

/-! ## `getConnection` -/

/-- Results of `getConnection`. -/
structure ConnResult where
  f : Option File
  err : Option OsError
  trace : List Event

/-- The function `getConnection`.  The named results `f` and `err` start as
nil; a bare `return` hands back their current values. -/
def getConnection (L : CmsgLayout) (sys : Sys) (localEnd : Option File) : ConnResult :=
  let res := sys.recvmsg (fileFd localEnd) 4 (4 * 256) 0
  let trace := [Event.recvmsg (fileFd localEnd) 4 (4 * 256) 0]
  if res.errno ≠ 0 then
    ⟨none, none, trace⟩
  else
    let messageType := readInt32 res.oob L.typeOffset
    let fd := readInt32 res.oob L.sizeofCmsghdr
    if messageType ≠ 1 then
      ⟨none, some (.newError
        ("getConnection: recvmsg returned wrong control type: " ++ fmtD messageType)), trace⟩
    else if res.oobn ≤ (L.sizeofCmsghdr : Int) then
      ⟨none, some (.newError
        ("getConnection: too short control message. Length: " ++ fmtD res.oobn)), trace⟩
    else if fd < 0 then
      ⟨none, some (.newError ("getConnection: fd < 0: " ++ fmtD fd)), trace⟩
    else
      ⟨NewFile fd "<fuseConnection>", none, trace⟩

/-! ## The functions of `path/filepath` used by `mount`

The package `path/filepath` belongs to the Go library, not to this repository.
The definitions below transcribe its Unix implementation of `IsAbs`, `Clean`
and `Join`.  A path is handled as its list of characters; the only bytes the
algorithms look at are `/` and `.`, which never occur inside the encoding of
another character. -/

/-- The function `os.IsPathSeparator` on Unix. -/
def isPathSeparator (c : Char) : Bool := c = '/'

/-- The function `filepath.IsAbs` on Unix, `strings.HasPrefix(path, "/")`. -/
def isAbsChars : List Char → Bool
  | [] => false
  | c :: _ => c = '/'

/-- The inner loop of the `..` case of `Clean`:
`for w > dotdot && !os.IsPathSeparator(buf[w]) { w-- }`, from `w` to the final
value of `w`. -/
def backtrackLoop (buf : List Char) (dotdot : Nat) : Nat → Nat
  | 0 => 0
  | w + 1 =>
    if dotdot < w + 1 ∧ isPathSeparator (buf.getD (w + 1) ' ') = false then
      backtrackLoop buf dotdot w
    else w + 1

/-- The main loop `for r < n` of `Clean`.  The arguments are `rooted`, the fuel
(one unit per iteration; `n` is enough since every iteration advances `r`), the
unread input `path[r:]`, the output written so far `buf[0:w]`, and `dotdot`.
The result is the final `buf[0:w]`. -/
def cleanLoop (rooted : Bool) : Nat → List Char → List Char → Nat → List Char
  | 0, _, out, _ => out
  | _ + 1, [], out, _ => out
  | fuel + 1, c :: rest, out, dotdot =>
    if isPathSeparator c then
      cleanLoop rooted fuel rest out dotdot
    else if c = '.' ∧ (rest = [] ∨ isPathSeparator (rest.headD ' ')) then
      cleanLoop rooted fuel rest out dotdot
    else if c = '.' ∧ rest.headD ' ' = '.' ∧
        (rest.tail = [] ∨ isPathSeparator (rest.tail.headD ' ')) then
      if dotdot < out.length then
        cleanLoop rooted fuel rest.tail
          (out.take (backtrackLoop out dotdot (out.length - 1))) dotdot
      else if rooted = false then
        let out1 := if 0 < out.length then out ++ ['/'] else out
        let out2 := out1 ++ ['.', '.']
        cleanLoop rooted fuel rest.tail out2 out2.length
      else
        cleanLoop rooted fuel rest.tail out dotdot
    else
      let out1 :=
        if (rooted = true ∧ out.length ≠ 1) ∨ (rooted = false ∧ out.length ≠ 0) then
          out ++ ['/']
        else out
      cleanLoop rooted fuel ((c :: rest).dropWhile (fun x => !isPathSeparator x))
        (out1 ++ (c :: rest).takeWhile (fun x => !isPathSeparator x)) dotdot

/-- The function `filepath.Clean` on the characters of a path. -/
def cleanChars (path : List Char) : List Char :=
  if path = [] then ['.']
  else
    let rooted := isPathSeparator (path.headD ' ')
    let start := if rooted then 1 else 0
    let out := cleanLoop rooted path.length (path.drop start) (path.take start) start
    if out.length = 0 then ['.'] else out

/-- The function `filepath.Join` for two elements, on characters: the elements
from the first non-empty one on are joined by the separator and cleaned. -/
def joinChars (a b : List Char) : List Char :=
  if a ≠ [] then cleanChars (a ++ '/' :: b)
  else if b ≠ [] then cleanChars b
  else []

/-- The function `filepath.IsAbs`. -/
def IsAbs (path : String) : Bool := isAbsChars path.data

/-- The function `filepath.Clean`. -/
def Clean (path : String) : String := String.mk (cleanChars path.data)

/-- The function `filepath.Join` applied to two elements. -/
def Join (a b : String) : String := String.mk (joinChars a.data b.data)

/-! ## `mount` -/

/-- Results of `mount`. -/
structure MountResult where
  f : Option File
  finalMountPoint : String
  err : Option OsError
  trace : List Event

/-- The events of the deferred `remote.Close()` and `local.Close()`, which run
in this order when `mount` returns; closing the nil file makes no OS call. -/
def deferredCloses (localEnd remote : Option File) : List Event :=
  (match remote with
    | none => []
    | some x => [Event.close x.fd]) ++
  (match localEnd with
    | none => []
    | some x => [Event.close x.fd])

/-- The function `mount`; `mountBinary` is the package variable of that name.
The named results `f`, `finalMountPoint` and `err` start as nil, the empty
string and nil, and a bare `return` hands back their current values.  Inside
the `if !filepath.IsAbs(mountPoint)` block, `cwd, err := os.Getwd()` declares a
new `err` for that block, so the `return` there hands back the outer `err`,
which is nil at that point.  The result `Except.error msg` is a Go panic. -/
def mount (L : CmsgLayout) (sys : Sys) (mountBinary : String)
    (mountPoint : String) (options : String) : Except String MountResult :=
  match Socketpair sys "unixgram" with
  | .error msg => .error msg
  | .ok sp =>
    match sp.err with
    | some e => .ok ⟨none, "", some e, sp.trace⟩
    | none =>
      let localEnd := sp.l
      let remote := sp.r
      let closes := deferredCloses localEnd remote
      let mountPoint1 := Clean mountPoint
      let needCwd : Bool := !IsAbs mountPoint1
      let trace1 := if needCwd then sp.trace ++ [Event.getwd] else sp.trace
      if needCwd ∧ sys.getwd.2 ≠ none then
        .ok ⟨none, "", none, trace1 ++ closes⟩
      else
        let mountPoint2 :=
          if needCwd then Clean (Join sys.getwd.1 mountPoint1) else mountPoint1
        let cmd0 := [mountBinary, mountPoint2]
        let cmd := if options ≠ "" then (cmd0 ++ ["-o"]) ++ [options] else cmd0
        let env := ["_FUSE_COMMFD=3"]
        let files := [some 0, some 1, some 2, remote.map File.fd]
        let proc := sys.startProcess mountBinary cmd env files
        let trace2 := trace1 ++ [Event.startProcess mountBinary cmd env files]
        match proc.2 with
        | some e => .ok ⟨none, "", some e, trace2 ++ closes⟩
        | none =>
          let w := sys.wait proc.1 0
          let trace3 := trace2 ++ [Event.wait proc.1 0]
          match w.2 with
          | some e => .ok ⟨none, "", some e, trace3 ++ closes⟩
          | none =>
            if w.1 ≠ 0 then
              .ok ⟨none, "", some (.newError
                ("fusermount exited with code " ++ fmtD w.1 ++ "\n")), trace3 ++ closes⟩
            else
              let conn := getConnection L sys localEnd
              .ok ⟨conn.f, mountPoint2, conn.err, trace3 ++ conn.trace ++ closes⟩

/-! ## `privilegedUnmount` -/

/-- Wrap-around of a machine `int64`. -/
def wrapInt64 (x : Int) : Int := (x + 9223372036854775808) % 18446744073709551616 - 9223372036854775808

/-- The loop variables of `privilegedUnmount` together with the number of
`syscall.Unmount` calls made so far and the trace. -/
structure UnmountState where
  delay : Int
  errNo : Int
  calls : Nat
  trace : List Event
  deriving DecidableEq, Repr

/-- The `for` loop of `privilegedUnmount`.  The first argument is
`maxTry - try`, so the test `try < maxTry` is the test that it is a successor.
`unmountErrno k` is the errno of the `k`-th call of `syscall.Unmount` of this
run, counted from 0. -/
def retryLoop (unmountErrno : Nat → Int) (mountPoint : String) : Nat → UnmountState → UnmountState
  | 0, s => s
  | left + 1, s =>
    if s.errNo ≠ 0 then
      let delay := wrapInt64 (2 * s.delay + 10000000)
      retryLoop unmountErrno mountPoint left
        ⟨delay, unmountErrno s.calls, s.calls + 1,
          s.trace ++ [Event.sleep delay, Event.unmount mountPoint 0]⟩
    else s

/-- Results of `privilegedUnmount`. -/
structure UnmountResult where
  err : Option OsError
  trace : List Event
  deriving DecidableEq, Repr

/-- The function `privilegedUnmount`. -/
def privilegedUnmount (unmountErrno : Nat → Int) (mountPoint : String) : UnmountResult :=
  let maxTry : Nat := 2
  let s := retryLoop unmountErrno mountPoint maxTry
    ⟨0, unmountErrno 0, 1, [Event.unmount mountPoint 0]⟩
  if s.errNo = 0 then ⟨none, s.trace⟩ else ⟨some (.errno s.errNo), s.trace⟩

/-! ## Concrete operating-system behaviours used as examples -/

/-- A control buffer holding one descriptor-rights message on linux/amd64:
`Len = 20`, `Level = 1` (`SOL_SOCKET`), `Type = 1` (`SCM_RIGHTS`), descriptor 5. -/
def rightsMessage : List Nat := [20, 0, 0, 0, 0, 0, 0, 0, 1, 0, 0, 0, 1, 0, 0, 0, 5, 0, 0, 0]

/-- A run in which every call succeeds, the helper exits with status 0 and
sends descriptor 5. -/
def sysGood : Sys where
  socketpair := fun _ _ _ => ((3, 4), 0)
  getwd := ("/home/user", none)
  startProcess := fun _ _ _ _ => (1234, none)
  wait := fun _ _ => (0, none)
  recvmsg := fun _ _ _ _ => ⟨1, 20, 0, rightsMessage, 0⟩

/-- As `sysGood`, but `recvmsg` fails with errno 104 (`ECONNRESET`) and leaves
the control buffer untouched. -/
def sysRecvFails : Sys :=
  { sysGood with recvmsg := fun _ _ _ _ => ⟨-1, 0, 0, [], 104⟩ }

/-- As `sysGood`, but the helper sends its data byte without any control
message: `oobn = 0` and the control buffer keeps its zero bytes. -/
def sysNoControl : Sys :=
  { sysGood with recvmsg := fun _ _ _ _ => ⟨1, 0, 0, [], 0⟩ }

/-- As `sysGood`, but the received control data stops one byte after the
header: `oobn = 17`, type tag 1, and a single payload byte 7. -/
def sysOneByte : Sys :=
  { sysGood with recvmsg := fun _ _ _ _ =>
      ⟨1, 17, 0, [17, 0, 0, 0, 0, 0, 0, 0, 1, 0, 0, 0, 1, 0, 0, 0, 7], 0⟩ }

/-- As `sysGood`, but the control message has type tag 2 (`SCM_CREDENTIALS`). -/
def sysWrongType : Sys :=
  { sysGood with recvmsg := fun _ _ _ _ =>
      ⟨1, 20, 0, [20, 0, 0, 0, 0, 0, 0, 0, 1, 0, 0, 0, 2, 0, 0, 0, 5, 0, 0, 0], 0⟩ }

/-- As `sysGood`, but the helper exits with status 1. -/
def sysHelperFails : Sys :=
  { sysGood with wait := fun _ _ => (1, none) }

/-- As `sysGood`, but `os.Getwd` fails. -/
def sysGetwdFails : Sys :=
  { sysGood with getwd := ("", some (.errno 2)) }

/-! ## Quantities read off a run -/

/-- The number of direct unmount attempts in a trace. -/
def unmountAttempts (trace : List Event) : Nat := (trace.filter Event.isUnmount).length

/-- The mount point that `mount` computes from its argument when `os.Getwd`
answers `cwd`: the value of the variable `mountPoint` after the first `if`. -/
def resolvedMountPoint (cwd mountPoint : String) : String :=
  if IsAbs (Clean mountPoint) then Clean mountPoint
  else Clean (Join cwd (Clean mountPoint))

/-! ## Path elements and the shape of a cleaned path -/

/-- The characters of a path element hold no separator. -/
def NoSep (t : List Char) : Prop := ∀ c ∈ t, c ≠ '/'

/-- A proper path element: non-empty, without separator, neither `.` nor `..`. -/
def Normal (t : List Char) : Prop := t ≠ [] ∧ NoSep t ∧ t ≠ ['.'] ∧ t ≠ ['.', '.']

/-- A run of `k` elements `..`. -/
def dots (k : Nat) : List (List Char) := List.replicate k ['.', '.']

/-- The elements of a list, each preceded by a separator. -/
def sepJoin : List (List Char) → List Char
  | [] => []
  | t :: ts => '/' :: (t ++ sepJoin ts)

/-- The path made of the elements `st`: `/` followed by the elements joined by
separators when `rooted`, the elements joined by separators otherwise. -/
def render : Bool → List (List Char) → List Char
  | true, [] => ['/']
  | true, t :: ts => sepJoin (t :: ts)
  | false, st => (sepJoin st).tail

/-- The default case of the loop of `Clean` on the output: a separator unless
the output is still at its start, then the element. -/
def pushComp (rooted : Bool) (out t : List Char) : List Char :=
  (if (rooted = true ∧ out.length ≠ 1) ∨ (rooted = false ∧ out.length ≠ 0) then out ++ ['/']
    else out) ++ t

/-- The output and `dotdot` after the `..` case of the loop of `Clean`. -/
def dotdotStep (rooted : Bool) (out : List Char) (dotdot : Nat) : List Char × Nat :=
  if dotdot < out.length then
    (out.take (backtrackLoop out dotdot (out.length - 1)), dotdot)
  else if rooted = false then
    ((if 0 < out.length then out ++ ['/'] else out) ++ ['.', '.'],
      ((if 0 < out.length then out ++ ['/'] else out) ++ ['.', '.']).length)
  else (out, dotdot)

/-- The state of the loop of `Clean` is the rendering of `k` elements `..`
followed by proper elements, and `dotdot` is the length of the `..` part. -/
def ValidState (rooted : Bool) (out : List Char) (dotdot : Nat) : Prop :=
  ∃ k ns, (rooted = true → k = 0) ∧ (∀ t ∈ ns, Normal t) ∧
    out = render rooted (dots k ++ ns) ∧ dotdot = (render rooted (dots k)).length

/-! ## Properties of `Clean`, `IsAbs` and `Join` -/

/-! ### One iteration of the loop of `Clean` -/

theorem cleanLoop_nil (rooted : Bool) (fuel : Nat) (out : List Char) (dotdot : Nat) :
    cleanLoop rooted fuel [] out dotdot = out := by
  cases fuel <;> rfl

theorem cleanLoop_sep (rooted : Bool) (fuel : Nat) (p out : List Char) (dotdot : Nat) :
    cleanLoop rooted (fuel + 1) ('/' :: p) out dotdot = cleanLoop rooted fuel p out dotdot := by
  simp [cleanLoop, isPathSeparator]

theorem cleanLoop_dot (rooted : Bool) (fuel : Nat) (rest out : List Char) (dotdot : Nat)
    (hrest : rest.headD '/' = '/') :
    cleanLoop rooted (fuel + 1) ('.' :: rest) out dotdot = cleanLoop rooted fuel rest out dotdot := by
  cases rest with
  | nil => simp [cleanLoop, isPathSeparator]
  | cons d rest =>
    simp only [List.headD_cons] at hrest
    subst hrest
    simp [cleanLoop, isPathSeparator]

theorem cleanLoop_dotdot (rooted : Bool) (fuel : Nat) (rest out : List Char) (dotdot : Nat)
    (hrest : rest.headD '/' = '/') :
    cleanLoop rooted (fuel + 1) ('.' :: '.' :: rest) out dotdot =
      cleanLoop rooted fuel rest (dotdotStep rooted out dotdot).1 (dotdotStep rooted out dotdot).2 := by
  have hsep : (rest = [] ∨ isPathSeparator (rest.headD ' ') = true) := by
    cases rest with
    | nil => exact Or.inl rfl
    | cons d rest =>
      simp only [List.headD_cons] at hrest
      subst hrest
      exact Or.inr rfl
  have h1 : ¬ (isPathSeparator '.' = true) := by decide
  have h2 : ¬ ('.' = '.' ∧ (('.' :: rest) = [] ∨ isPathSeparator (('.' :: rest).headD ' ') = true)) := by
    simp [isPathSeparator]
  have h3 : '.' = '.' ∧ ('.' :: rest).headD ' ' = '.' ∧
      (('.' :: rest).tail = [] ∨ isPathSeparator (('.' :: rest).tail.headD ' ') = true) :=
    ⟨rfl, rfl, hsep⟩
  rw [cleanLoop, if_neg h1, if_neg h2, if_pos h3]
  unfold dotdotStep
  split_ifs <;> rfl

theorem takeWhile_elem (t rest : List Char) (ht : NoSep t) (hrest : rest.headD '/' = '/') :
    (t ++ rest).takeWhile (fun x => !isPathSeparator x) = t ∧
      (t ++ rest).dropWhile (fun x => !isPathSeparator x) = rest := by
  have hp : ∀ a ∈ t, (fun x => !isPathSeparator x) a = true := by
    intro a ha
    have := ht a ha
    simp [isPathSeparator, this]
  rw [List.takeWhile_append_of_pos hp, List.dropWhile_append_of_pos hp]
  cases rest with
  | nil => simp
  | cons d rest =>
    simp only [List.headD_cons] at hrest
    subst hrest
    simp [isPathSeparator]

theorem cleanLoop_normal (rooted : Bool) (fuel : Nat) (t rest out : List Char) (dotdot : Nat)
    (ht : Normal t) (hrest : rest.headD '/' = '/') :
    cleanLoop rooted (fuel + 1) (t ++ rest) out dotdot =
      cleanLoop rooted fuel rest (pushComp rooted out t) dotdot := by
  obtain ⟨hne, hns, hd1, hd2⟩ := ht
  have htw := takeWhile_elem t rest hns hrest
  cases t with
  | nil => exact absurd rfl hne
  | cons c t1 =>
    have hc : c ≠ '/' := hns c (List.mem_cons_self _ _)
    have h2 : ¬ (c = '.' ∧ ((t1 ++ rest) = [] ∨ isPathSeparator ((t1 ++ rest).headD ' ') = true)) := by
      rintro ⟨hcd, h⟩
      cases t1 with
      | nil => exact hd1 (by rw [hcd])
      | cons d t2 =>
        rcases h with h | h
        · simp at h
        · have hd : d ≠ '/' := hns d (by simp)
          simp [isPathSeparator, hd] at h
    have h3 : ¬ (c = '.' ∧ (t1 ++ rest).headD ' ' = '.' ∧
        ((t1 ++ rest).tail = [] ∨ isPathSeparator ((t1 ++ rest).tail.headD ' ') = true)) := by
      rintro ⟨hcd, hdd, h⟩
      cases t1 with
      | nil =>
        apply h2
        refine ⟨hcd, ?_⟩
        cases rest with
        | nil => exact Or.inl rfl
        | cons e rest =>
          simp only [List.headD_cons] at hrest
          subst hrest
          exact Or.inr rfl
      | cons d t2 =>
        simp only [List.cons_append, List.headD_cons] at hdd
        cases t2 with
        | nil => exact hd2 (by rw [hcd, hdd])
        | cons e t3 =>
          have he : e ≠ '/' := hns e (by simp)
          rcases h with h | h
          · simp at h
          · simp [isPathSeparator, he] at h
    have h1 : ¬ (isPathSeparator c = true) := by simp [isPathSeparator, hc]
    rw [List.cons_append] at htw ⊢
    rw [cleanLoop, if_neg h1, if_neg h2, if_neg h3, htw.1, htw.2]
    rfl

theorem dropWhile_length_le (l : List Char) :
    (l.dropWhile (fun x => !isPathSeparator x)).length ≤ l.length := by
  induction l with
  | nil => simp
  | cons a l ih =>
    simp only [List.dropWhile_cons]
    split
    · simp only [List.length_cons]; omega
    · simp

/-- The fuel of the loop of `Clean` never runs out: any two amounts that are at
least the length of the unread input give the same result. -/
theorem cleanLoop_fuel (rooted : Bool) :
    ∀ (fuel fuel2 : Nat) (p out : List Char) (dotdot : Nat), p.length ≤ fuel →
      p.length ≤ fuel2 →
      cleanLoop rooted fuel p out dotdot = cleanLoop rooted fuel2 p out dotdot := by
  intro fuel
  induction fuel with
  | zero =>
    intro fuel2 p out dotdot h1 _
    have hp : p = [] := List.length_eq_zero.mp (Nat.le_zero.mp h1)
    subst hp
    rw [cleanLoop_nil, cleanLoop_nil]
  | succ fuel ih =>
    intro fuel2 p out dotdot h1 h2
    cases p with
    | nil => rw [cleanLoop_nil, cleanLoop_nil]
    | cons c rest =>
      obtain ⟨f2, rfl⟩ : ∃ f2, fuel2 = f2 + 1 :=
        ⟨fuel2 - 1, by simp only [List.length_cons] at h2; omega⟩
      simp only [List.length_cons, Nat.add_le_add_iff_right] at h1 h2
      have ht1 : rest.tail.length ≤ fuel := by simp only [List.length_tail]; omega
      have ht2 : rest.tail.length ≤ f2 := by simp only [List.length_tail]; omega
      have hdrop := dropWhile_length_le rest
      rw [cleanLoop, cleanLoop]
      have hd : isPathSeparator c = false →
          ((c :: rest).dropWhile (fun x => !isPathSeparator x)).length ≤ rest.length := by
        intro hc
        have : (c :: rest).dropWhile (fun x => !isPathSeparator x)
            = rest.dropWhile (fun x => !isPathSeparator x) := by
          simp [List.dropWhile_cons, hc]
        rw [this]
        exact hdrop
      split_ifs with hsep
      all_goals first
        | exact ih f2 _ _ _ h1 h2
        | exact ih f2 _ _ _ ht1 ht2
        | exact ih f2 _ _ _ (le_trans (hd (by simpa using hsep)) h1)
            (le_trans (hd (by simpa using hsep)) h2)

/-! ### Renderings -/

theorem sepJoin_append (a b : List (List Char)) : sepJoin (a ++ b) = sepJoin a ++ sepJoin b := by
  induction a with
  | nil => rfl
  | cons t ts ih => simp [sepJoin, ih]

theorem sepJoin_headD (st : List (List Char)) : (sepJoin st).headD '/' = '/' := by
  cases st <;> rfl

theorem sepJoin_length_ge (st : List (List Char)) (h : ∀ t ∈ st, t ≠ []) :
    2 * st.length ≤ (sepJoin st).length := by
  induction st with
  | nil => simp
  | cons t ts ih =>
    have ht : t ≠ [] := h t (List.mem_cons_self _ _)
    have hpos : 0 < t.length := List.length_pos.mpr ht
    have := ih (fun x hx => h x (List.mem_cons_of_mem _ hx))
    simp only [sepJoin, List.length_cons, List.length_append]
    omega

theorem render_false_length (st : List (List Char)) :
    (render false st).length = (sepJoin st).length - 1 := by
  simp [render]

/-- Pushing an element on a rendering renders the longer list. -/
theorem pushComp_render (rooted : Bool) (st : List (List Char)) (t : List Char)
    (h : ∀ x ∈ st, x ≠ []) :
    pushComp rooted (render rooted st) t = render rooted (st ++ [t]) := by
  cases st with
  | nil => cases rooted <;> simp [pushComp, render, sepJoin]
  | cons a as =>
    have ha : a ≠ [] := h a (List.mem_cons_self _ _)
    have hpos : 0 < a.length := List.length_pos.mpr ha
    cases rooted with
    | true =>
      have hlen : (render true (a :: as)).length ≠ 1 := by
        simp only [render, sepJoin, List.length_cons, List.length_append]
        omega
      simp only [pushComp, hlen, ne_eq, not_false_eq_true, and_self, true_or, if_true]
      simp [render, sepJoin, sepJoin_append]
    | false =>
      have hlen : (render false (a :: as)).length ≠ 0 := by
        simp only [render, sepJoin, List.tail_cons, List.length_append]
        omega
      simp only [pushComp, hlen, ne_eq, not_false_eq_true, and_self, or_true, if_true]
      simp [render, sepJoin, sepJoin_append]

theorem dots_ne_nil (k : Nat) : ∀ x ∈ dots k, x ≠ [] := by
  intro x hx
  have := List.eq_of_mem_replicate hx
  simp [this]

theorem state_ne_nil (k : Nat) (ns : List (List Char)) (hns : ∀ t ∈ ns, Normal t) :
    ∀ x ∈ dots k ++ ns, x ≠ [] := by
  intro x hx
  rcases List.mem_append.mp hx with h | h
  · exact dots_ne_nil k x h
  · exact (hns x h).1

theorem render_length_le_append (rooted : Bool) (a b : List (List Char)) :
    (render rooted a).length ≤ (render rooted (a ++ b)).length := by
  cases rooted with
  | false => simp only [render_false_length, sepJoin_append, List.length_append]; omega
  | true =>
    cases a with
    | nil =>
      cases b with
      | nil => simp
      | cons t ts => simp [render, sepJoin]
    | cons t ts =>
      simp only [List.cons_append, render, sepJoin, sepJoin_append, List.length_cons,
        List.length_append]
      omega

theorem pushComp_length (rooted : Bool) (out t : List Char) :
    out.length + t.length ≤ (pushComp rooted out t).length := by
  unfold pushComp
  split_ifs <;> simp

/-! ### Backtracking -/

theorem backtrackLoop_stop (pre t1 : List Char) (c : Char) (dotdot : Nat)
    (hdd : dotdot ≤ pre.length) (hc : c = '/' ∨ dotdot = pre.length) (hns : NoSep t1) :
    ∀ j, j ≤ t1.length → backtrackLoop (pre ++ c :: t1) dotdot (pre.length + j) = pre.length := by
  intro j
  induction j with
  | zero =>
    intro _
    cases hpre : pre.length with
    | zero => rfl
    | succ n =>
      simp only [Nat.add_zero]
      rw [backtrackLoop]
      have hget : (pre ++ c :: t1).getD (n + 1) ' ' = c := by
        rw [List.getD_append_right _ _ _ _ (by omega)]
        simp [hpre]
      rw [hget]
      rcases hc with hc | hc
      · subst hc
        simp [isPathSeparator]
      · have : ¬ (dotdot < n + 1) := by omega
        simp [this]
  | succ j ih =>
    intro hj
    have hget : (pre ++ c :: t1).getD (pre.length + j + 1) ' ' = t1.getD j ' ' := by
      rw [List.getD_append_right _ _ _ _ (by omega)]
      have : pre.length + j + 1 - pre.length = j + 1 := by omega
      rw [this]
      simp
    have hmem : t1.getD j ' ' ∈ t1 := by
      rw [List.getD_eq_getElem _ _ (by omega : j < t1.length)]
      exact List.getElem_mem _
    have hne : t1.getD j ' ' ≠ '/' := hns _ hmem
    show backtrackLoop (pre ++ c :: t1) dotdot (pre.length + j + 1) = pre.length
    rw [backtrackLoop, hget]
    have h1 : dotdot < pre.length + j + 1 := by omega
    simp only [h1, isPathSeparator, hne, decide_False, and_self, if_true]
    exact ih (by omega)

/-- Backtracking from a rendering that ends in a proper element removes that
element. -/
theorem backtrack_render (rooted : Bool) (k : Nat) (ns : List (List Char)) (t : List Char)
    (hns : ∀ x ∈ ns, Normal x) (ht : Normal t) :
    (render rooted (dots k ++ ns ++ [t])).take
        (backtrackLoop (render rooted (dots k ++ ns ++ [t])) (render rooted (dots k)).length
          ((render rooted (dots k ++ ns ++ [t])).length - 1))
      = render rooted (dots k ++ ns) := by
  have hst := state_ne_nil k ns hns
  have hmono := render_length_le_append rooted (dots k) ns
  rw [← pushComp_render rooted (dots k ++ ns) t hst]
  obtain ⟨hne, hnosep, -, -⟩ := ht
  unfold pushComp
  split_ifs with hslash
  · -- a separator was written before the element
    have hlen : (render rooted (dots k ++ ns) ++ ['/'] ++ t).length - 1
        = (render rooted (dots k ++ ns)).length + t.length := by
      simp only [List.length_append, List.length_singleton]; omega
    rw [hlen]
    have happ : render rooted (dots k ++ ns) ++ ['/'] ++ t
        = render rooted (dots k ++ ns) ++ '/' :: t := by simp
    rw [happ, backtrackLoop_stop _ t '/' _ hmono (Or.inl rfl) hnosep _ (le_refl _)]
    exact List.take_left _ _
  · -- the output was at its start
    have hnil : dots k ++ ns = [] := by
      by_contra hcon
      apply hslash
      obtain ⟨a, as, hcons⟩ := List.exists_cons_of_ne_nil hcon
      have ha : a ≠ [] := hst a (by rw [hcons]; exact List.mem_cons_self _ _)
      have hpos : 0 < a.length := List.length_pos.mpr ha
      rw [hcons]
      cases rooted with
      | true =>
        left
        refine ⟨rfl, ?_⟩
        simp only [render, sepJoin, List.length_cons, List.length_append]
        omega
      | false =>
        right
        refine ⟨rfl, ?_⟩
        simp only [render, sepJoin, List.tail_cons, List.length_append]
        omega
    have hk : dots k = [] := (List.append_eq_nil.mp hnil).1
    rw [hnil, hk]
    cases t with
    | nil => exact absurd rfl hne
    | cons c t1 =>
      have hns1 : NoSep t1 := fun x hx => hnosep x (List.mem_cons_of_mem _ hx)
      have hlen : (render rooted [] ++ c :: t1).length - 1 = (render rooted []).length + t1.length := by
        simp only [List.length_append, List.length_cons]; omega
      rw [hlen, backtrackLoop_stop _ t1 c _ (le_refl _) (Or.inr rfl) hns1 _ (le_refl _)]
      exact List.take_left _ _

/-! ### The loop keeps its state valid -/

theorem validState_push (rooted : Bool) (out t : List Char) (dotdot : Nat)
    (h : ValidState rooted out dotdot) (ht : Normal t) :
    ValidState rooted (pushComp rooted out t) dotdot := by
  obtain ⟨k, ns, hk, hns, rfl, rfl⟩ := h
  refine ⟨k, ns ++ [t], hk, ?_, ?_, rfl⟩
  · intro x hx
    rcases List.mem_append.mp hx with h | h
    · exact hns x h
    · rw [List.mem_singleton.mp h]; exact ht
  · rw [pushComp_render rooted (dots k ++ ns) t (state_ne_nil k ns hns), List.append_assoc]

theorem dots_succ (k : Nat) : dots (k + 1) = dots k ++ [['.', '.']] := by
  unfold dots
  exact List.replicate_succ' k _

theorem dotdotStep_dots (i : Nat) :
    dotdotStep false (render false (dots i)) (render false (dots i)).length =
      (render false (dots (i + 1)), (render false (dots (i + 1))).length) := by
  have hpush : (if 0 < (render false (dots i)).length then render false (dots i) ++ ['/']
      else render false (dots i)) ++ ['.', '.'] = render false (dots (i + 1)) := by
    rw [dots_succ, ← pushComp_render false (dots i) ['.', '.'] (dots_ne_nil i)]
    unfold pushComp
    by_cases h : 0 < (render false (dots i)).length
    · have h2 : (render false (dots i)).length ≠ 0 := by omega
      simp [h, h2]
    · have h2 : (render false (dots i)).length = 0 := by omega
      simp [h2]
  unfold dotdotStep
  rw [if_neg (lt_irrefl _), if_pos rfl, hpush]

theorem validState_dotdot (rooted : Bool) (out : List Char) (dotdot : Nat)
    (h : ValidState rooted out dotdot) :
    ValidState rooted (dotdotStep rooted out dotdot).1 (dotdotStep rooted out dotdot).2 := by
  obtain ⟨k, ns, hk, hns, rfl, rfl⟩ := h
  rcases List.eq_nil_or_concat ns with hnil | ⟨ns1, t, hcat⟩
  · subst hnil
    rw [List.append_nil]
    cases rooted with
    | false =>
      rw [dotdotStep_dots]
      exact ⟨k + 1, [], by simp, by simp, by simp, rfl⟩
    | true =>
      unfold dotdotStep
      rw [if_neg (lt_irrefl _), if_neg (by simp)]
      exact ⟨k, [], hk, by simp, by simp, rfl⟩
  · rw [List.concat_eq_append] at hcat
    subst hcat
    have hns1 : ∀ x ∈ ns1, Normal x := fun x hx => hns x (List.mem_append_left _ hx)
    have ht : Normal t := hns t (by simp)
    have hlt : (render rooted (dots k)).length < (render rooted (dots k ++ (ns1 ++ [t]))).length := by
      rw [← List.append_assoc, ← pushComp_render rooted (dots k ++ ns1) t (state_ne_nil k ns1 hns1)]
      have h1 := pushComp_length rooted (render rooted (dots k ++ ns1)) t
      have h2 := render_length_le_append rooted (dots k) ns1
      have h3 : 0 < t.length := List.length_pos.mpr ht.1
      omega
    unfold dotdotStep
    rw [if_pos hlt]
    refine ⟨k, ns1, hk, hns1, ?_, rfl⟩
    rw [← List.append_assoc]
    exact backtrack_render rooted k ns1 t hns1 ht

theorem dropWhile_headD (l : List Char) :
    (l.dropWhile (fun x => !isPathSeparator x)).headD '/' = '/' := by
  induction l with
  | nil => rfl
  | cons a l ih =>
    by_cases ha : a = '/'
    · subst ha
      simp [List.dropWhile_cons, isPathSeparator]
    · simp only [List.dropWhile_cons, isPathSeparator, ha, decide_False, Bool.not_false, if_true]
      exact ih

theorem takeWhile_noSep (l : List Char) :
    NoSep (l.takeWhile (fun x => !isPathSeparator x)) := by
  intro c hc
  have := List.mem_takeWhile_imp hc
  simpa [isPathSeparator] using this

/-- Lemma A: from a valid state, on any input, the loop of `Clean` ends in a
valid state. -/
theorem cleanLoop_valid (rooted : Bool) :
    ∀ (fuel : Nat) (p out : List Char) (dotdot : Nat), p.length ≤ fuel →
      ValidState rooted out dotdot →
      ∃ dd, ValidState rooted (cleanLoop rooted fuel p out dotdot) dd := by
  intro fuel
  induction fuel with
  | zero =>
    intro p out dotdot hlen h
    exact ⟨dotdot, h⟩
  | succ fuel ih =>
    intro p out dotdot hlen h
    cases p with
    | nil => exact ⟨dotdot, h⟩
    | cons c rest =>
      by_cases hc : c = '/'
      · subst hc
        rw [cleanLoop_sep]
        exact ih rest out dotdot (by simpa using hlen) h
      · have hsplit := List.takeWhile_append_dropWhile (fun x => !isPathSeparator x) (c :: rest)
        have hnosep := takeWhile_noSep (c :: rest)
        have hhead := dropWhile_headD (c :: rest)
        have hne : (c :: rest).takeWhile (fun x => !isPathSeparator x) ≠ [] := by
          simp [List.takeWhile_cons, isPathSeparator, hc]
        generalize (c :: rest).takeWhile (fun x => !isPathSeparator x) = t at hsplit hnosep hne
        generalize (c :: rest).dropWhile (fun x => !isPathSeparator x) = rest1 at hsplit hhead
        have hlen1 : rest1.length ≤ fuel := by
          have h1 : t.length + rest1.length = (c :: rest).length := by
            rw [← hsplit, List.length_append]
          have h2 : 0 < t.length := List.length_pos.mpr hne
          simp only [List.length_cons] at h1 hlen
          omega
        rw [← hsplit]
        by_cases hd1 : t = ['.']
        · subst hd1
          rw [List.singleton_append, cleanLoop_dot _ _ _ _ _ hhead]
          exact ih rest1 out dotdot hlen1 h
        · by_cases hd2 : t = ['.', '.']
          · subst hd2
            have : ['.', '.'] ++ rest1 = '.' :: '.' :: rest1 := rfl
            rw [this, cleanLoop_dotdot _ _ _ _ _ hhead]
            exact ih rest1 _ _ hlen1 (validState_dotdot rooted out dotdot h)
          · have hnorm : Normal t := ⟨hne, hnosep, hd1, hd2⟩
            rw [cleanLoop_normal _ _ _ _ _ _ hnorm hhead]
            exact ih rest1 _ _ hlen1 (validState_push rooted out t dotdot h hnorm)

/-! ### The loop on a path that is already clean -/

/-- Lemma B: on proper elements, each preceded by a separator, the loop pushes
every element. -/
theorem cleanLoop_elements (rooted : Bool) (k : Nat) :
    ∀ (todo done : List (List Char)) (fuel : Nat), (∀ t ∈ todo, Normal t) →
      (∀ t ∈ done, Normal t) → 2 * todo.length ≤ fuel →
      cleanLoop rooted fuel (sepJoin todo) (render rooted (dots k ++ done))
          (render rooted (dots k)).length
        = render rooted (dots k ++ done ++ todo) := by
  intro todo
  induction todo with
  | nil =>
    intro done fuel _ _ _
    simp [sepJoin, cleanLoop_nil]
  | cons t ts ih =>
    intro done fuel htodo hdone hfuel
    obtain ⟨f, rfl⟩ : ∃ f, fuel = f + 1 + 1 := ⟨fuel - 2, by simp only [List.length_cons] at hfuel; omega⟩
    have ht : Normal t := htodo t (List.mem_cons_self _ _)
    have hdone1 : ∀ x ∈ done ++ [t], Normal x := by
      intro x hx
      rcases List.mem_append.mp hx with h | h
      · exact hdone x h
      · rw [List.mem_singleton.mp h]; exact ht
    simp only [sepJoin]
    rw [cleanLoop_sep, cleanLoop_normal _ _ _ _ _ _ ht (sepJoin_headD ts),
      pushComp_render rooted (dots k ++ done) t (state_ne_nil k done hdone), List.append_assoc,
      ih (done ++ [t]) f (fun x hx => htodo x (List.mem_cons_of_mem _ hx)) hdone1
        (by simp only [List.length_cons] at hfuel; omega)]
    simp

/-- On `j` elements `..` followed by proper elements, the unrooted loop, started
after `i` elements `..`, appends all of them. -/
theorem cleanLoop_dots (ns : List (List Char)) (hns : ∀ t ∈ ns, Normal t) :
    ∀ (j i fuel : Nat), 2 * (j + ns.length) ≤ fuel →
      cleanLoop false fuel (sepJoin (dots j ++ ns)) (render false (dots i))
          (render false (dots i)).length
        = render false (dots (i + j) ++ ns) := by
  intro j
  induction j with
  | zero =>
    intro i fuel hfuel
    have h := cleanLoop_elements false i ns [] fuel hns (by simp) (by omega)
    simpa [dots] using h
  | succ j ih =>
    intro i fuel hfuel
    obtain ⟨f, rfl⟩ : ∃ f, fuel = f + 1 + 1 := ⟨fuel - 2, by omega⟩
    have hd : dots (j + 1) ++ ns = ['.', '.'] :: (dots j ++ ns) := by
      simp [dots, List.replicate_succ]
    have hj : sepJoin (dots (j + 1) ++ ns) = '/' :: '.' :: '.' :: sepJoin (dots j ++ ns) := by
      rw [hd]; rfl
    rw [hj, cleanLoop_sep, cleanLoop_dotdot _ _ _ _ _ (sepJoin_headD _), dotdotStep_dots,
      ih (i + 1) f (by omega)]
    have : i + 1 + j = i + (j + 1) := by omega
    rw [this]

theorem state_head_ne_sep (k : Nat) (ns : List (List Char)) (hns : ∀ t ∈ ns, Normal t)
    (a : List Char) (as : List (List Char)) (h : dots k ++ ns = a :: as) :
    ∃ c a1, a = c :: a1 ∧ c ≠ '/' := by
  have hmem : a ∈ dots k ++ ns := by rw [h]; exact List.mem_cons_self _ _
  rcases List.mem_append.mp hmem with hd | hn
  · have := List.eq_of_mem_replicate hd
    exact ⟨'.', ['.'], this, by decide⟩
  · obtain ⟨hne, hnosep, -, -⟩ := hns a hn
    cases a with
    | nil => exact absurd rfl hne
    | cons c a1 => exact ⟨c, a1, rfl, hnosep c (List.mem_cons_self _ _)⟩

/-- Lemma C: `Clean` leaves a non-empty rendering unchanged. -/
theorem cleanChars_render (rooted : Bool) (k : Nat) (ns : List (List Char))
    (hk : rooted = true → k = 0) (hns : ∀ t ∈ ns, Normal t)
    (hne : render rooted (dots k ++ ns) ≠ []) :
    cleanChars (render rooted (dots k ++ ns)) = render rooted (dots k ++ ns) := by
  have hfuel := sepJoin_length_ge (dots k ++ ns) (state_ne_nil k ns hns)
  cases hst : dots k ++ ns with
  | nil =>
    rw [hst] at hne
    cases rooted with
    | true => decide
    | false => exact absurd rfl hne
  | cons a as =>
    obtain ⟨c, a1, rfl, hc⟩ := state_head_ne_sep k ns hns a as hst
    rw [hst] at hfuel
    cases rooted with
    | true =>
      have hk0 : k = 0 := hk rfl
      subst hk0
      have hns' : ns = (c :: a1) :: as := by simpa [dots] using hst
      have hsj : sepJoin ((c :: a1) :: as) = '/' :: (c :: a1 ++ sepJoin as) := rfl
      have hrender : render true ((c :: a1) :: as) = '/' :: (c :: a1 ++ sepJoin as) := rfl
      have h1 : render true [] = ['/'] := rfl
      have h2 : 2 * ((c :: a1) :: as).length ≤ (c :: a1 ++ sepJoin as).length + 1 := hfuel
      have hB := cleanLoop_elements true 0 ((c :: a1) :: as) []
        ((c :: a1 ++ sepJoin as).length + 1 + 1)
        (by rw [← hns']; exact hns) (by simp) (by omega)
      simp only [dots, List.replicate_zero, List.nil_append, List.append_nil, h1, hsj,
        cleanLoop_sep, List.length_singleton, hrender] at hB
      rw [hrender]
      unfold cleanChars
      simp only [List.cons_ne_nil, if_false, List.headD_cons, isPathSeparator, decide_True,
        if_true, List.drop_succ_cons, List.drop_zero, List.take_succ_cons, List.take_zero,
        List.length_cons]
      simp only [List.cons_append, List.length_cons, List.length_append] at hB ⊢
      simp [hB]
    | false =>
      have hB := cleanLoop_dots ns hns k 0 ((c :: a1 ++ sepJoin as).length + 1)
        (by
          have : (dots k ++ ns).length = k + ns.length := by simp [dots]
          rw [hst] at this
          have h2 : 2 * ((c :: a1) :: as).length ≤ (c :: a1 ++ sepJoin as).length + 1 := hfuel
          omega)
      have hsj : sepJoin ((c :: a1) :: as) = '/' :: (c :: a1 ++ sepJoin as) := rfl
      have h1 : render false (dots 0) = [] := rfl
      rw [hst, hsj, cleanLoop_sep, h1, Nat.zero_add, hst] at hB
      have hrender : render false ((c :: a1) :: as) = c :: a1 ++ sepJoin as := rfl
      rw [hrender] at hB
      rw [List.length_nil] at hB
      rw [hrender]
      unfold cleanChars
      have hsep : isPathSeparator c = false := by simp [isPathSeparator, hc]
      simp only [List.cons_append, List.cons_ne_nil, if_false, List.headD_cons, hsep,
        Bool.false_eq_true, List.drop_zero, List.take_zero, List.length_cons]
      simp only [List.cons_append, List.length_cons, List.length_append] at hB ⊢
      simp [hB]

/-! ### Shape, absoluteness and idempotence of `Clean` -/

/-- The result of `Clean` is `.` or a non-empty rendering, rooted exactly when
the argument is absolute. -/
theorem cleanChars_shape (p : List Char) :
    cleanChars p = ['.'] ∧ isAbsChars p = false ∨
    ∃ k ns, (isAbsChars p = true → k = 0) ∧ (∀ t ∈ ns, Normal t) ∧
      render (isAbsChars p) (dots k ++ ns) ≠ [] ∧
      cleanChars p = render (isAbsChars p) (dots k ++ ns) := by
  cases p with
  | nil => exact Or.inl ⟨rfl, rfl⟩
  | cons c rest =>
    by_cases hc : c = '/'
    · subst hc
      have hv : ValidState true ['/'] 1 := ⟨0, [], by simp, by simp, rfl, rfl⟩
      obtain ⟨dd, k, ns, hk, hns, hout, -⟩ :=
        cleanLoop_valid true (rest.length + 1) rest ['/'] 1 (by omega) hv
      have hne : render true (dots k ++ ns) ≠ [] := by
        cases dots k ++ ns <;> simp [render, sepJoin]
      right
      refine ⟨k, ns, hk, hns, hne, ?_⟩
      have habs : isAbsChars ('/' :: rest) = true := rfl
      rw [habs]
      unfold cleanChars
      simp only [List.cons_ne_nil, if_false, List.headD_cons, isPathSeparator, decide_True,
        if_true, List.drop_succ_cons, List.drop_zero, List.take_succ_cons, List.take_zero,
        List.length_cons, hout]
      have : (render true (dots k ++ ns)).length ≠ 0 := by
        intro h0; exact hne (List.length_eq_zero.mp h0)
      simp [this]
    · have hv : ValidState false [] 0 := ⟨0, [], by simp, by simp, rfl, rfl⟩
      obtain ⟨dd, k, ns, hk, hns, hout, -⟩ :=
        cleanLoop_valid false (rest.length + 1) (c :: rest) [] 0 (by simp) hv
      have habs : isAbsChars (c :: rest) = false := by simp [isAbsChars, hc]
      have hsep : isPathSeparator c = false := by simp [isPathSeparator, hc]
      have hcl : cleanChars (c :: rest) =
          if (render false (dots k ++ ns)).length = 0 then ['.'] else render false (dots k ++ ns) := by
        unfold cleanChars
        simp only [List.cons_ne_nil, if_false, List.headD_cons, hsep, Bool.false_eq_true,
          List.drop_zero, List.take_zero, List.length_cons, hout]
      rw [habs]
      by_cases h0 : (render false (dots k ++ ns)).length = 0
      · left
        rw [hcl, if_pos h0]
        exact ⟨rfl, rfl⟩
      · right
        refine ⟨k, ns, by simp, hns, ?_, ?_⟩
        · intro h; exact h0 (by rw [h]; rfl)
        · rw [hcl, if_neg h0]

/-- The function `Clean` is idempotent. -/
theorem cleanChars_idem (p : List Char) : cleanChars (cleanChars p) = cleanChars p := by
  rcases cleanChars_shape p with ⟨h, -⟩ | ⟨k, ns, hk, hns, hne, h⟩
  · rw [h]; decide
  · rw [h]
    exact cleanChars_render _ k ns hk hns hne

/-- The function `Clean` maps absolute paths to absolute paths. -/
theorem cleanChars_abs (p : List Char) (hp : isAbsChars p = true) :
    isAbsChars (cleanChars p) = true := by
  rcases cleanChars_shape p with ⟨-, h⟩ | ⟨k, ns, hk, hns, hne, h⟩
  · rw [hp] at h; exact absurd h (by decide)
  · rw [h, hp]
    cases hst : dots k ++ ns with
    | nil => rfl
    | cons a as => rfl

theorem Clean_idem (path : String) : Clean (Clean path) = Clean path := by
  simp [Clean, cleanChars_idem]

theorem Clean_abs (path : String) (h : IsAbs path = true) : IsAbs (Clean path) = true := by
  simpa [Clean, IsAbs] using cleanChars_abs path.data h

theorem Join_abs (a b : String) (h : IsAbs a = true) : IsAbs (Join a b) = true := by
  have hne : a.data ≠ [] := by
    intro h0
    simp [IsAbs, h0, isAbsChars] at h
  have hjoin : isAbsChars (a.data ++ '/' :: b.data) = true := by
    cases hd : a.data with
    | nil => exact absurd hd hne
    | cons c rest =>
      simp only [IsAbs, hd] at h
      exact h
  simp only [Join, IsAbs, joinChars, hne, ne_eq, not_false_eq_true, if_true]
  exact cleanChars_abs _ hjoin

/-! ## Theorems about `getConnection` -/

/-- C1: after a successful receive whose header has type tag 1, whose
out-of-band length exceeds `SizeofCmsghdr` and whose `int32` at offset
`SizeofCmsghdr` is `d ≥ 0`, `getConnection` returns a nil error and the file
wrapping descriptor `d`. -/
theorem getConnection_wraps_descriptor (L : CmsgLayout) (sys : Sys) (localEnd : Option File)
    (d : Int)
    (herrno : (sys.recvmsg (fileFd localEnd) 4 (4 * 256) 0).errno = 0)
    (htype : readInt32 (sys.recvmsg (fileFd localEnd) 4 (4 * 256) 0).oob L.typeOffset = 1)
    (hoobn : (L.sizeofCmsghdr : Int) < (sys.recvmsg (fileFd localEnd) 4 (4 * 256) 0).oobn)
    (hfd : readInt32 (sys.recvmsg (fileFd localEnd) 4 (4 * 256) 0).oob L.sizeofCmsghdr = d)
    (hd : 0 ≤ d) :
    (getConnection L sys localEnd).err = none ∧
      (getConnection L sys localEnd).f = some ⟨d, "<fuseConnection>"⟩ := by
  have h1 : ¬ ((sys.recvmsg (fileFd localEnd) 4 (4 * 256) 0).oobn ≤ (L.sizeofCmsghdr : Int)) :=
    not_le.mpr hoobn
  have h2 : ¬ (d < 0) := not_lt.mpr hd
  simp [getConnection, herrno, htype, h1, hfd, h2, NewFile]

/-- Witness of C1: on linux/amd64 the message `rightsMessage` yields the file
of descriptor 5. -/
theorem getConnection_wraps_descriptor_witness :
    (getConnection linuxAmd64 sysGood (some ⟨3, "socketpair-half1"⟩)).err = none ∧
      (getConnection linuxAmd64 sysGood (some ⟨3, "socketpair-half1"⟩)).f
        = some ⟨5, "<fuseConnection>"⟩ :=
  getConnection_wraps_descriptor linuxAmd64 sysGood (some ⟨3, "socketpair-half1"⟩) 5
    (by decide) (by decide) (by decide) (by decide) (by decide)

/-- C3, the code at a failing receive: with errno 104 from `recvmsg`,
`getConnection` returns the nil file together with the nil error. -/
theorem getConnection_recv_failure_returns_nil_nil :
    (sysRecvFails.recvmsg 3 4 (4 * 256) 0).errno ≠ 0 ∧
      (getConnection linuxAmd64 sysRecvFails (some ⟨3, "socketpair-half1"⟩)).f = none ∧
      (getConnection linuxAmd64 sysRecvFails (some ⟨3, "socketpair-half1"⟩)).err = none := by
  refine ⟨by decide, ?_, ?_⟩ <;> simp [getConnection, sysRecvFails, sysGood]

/-- C4 as stated fails: a successful receive with `oobn = 0`, below the header
size 16, is answered with the wrong-control-type error, not with the
too-short error. -/
theorem short_message_reported_as_wrong_type :
    (sysNoControl.recvmsg 3 4 (4 * 256) 0).errno = 0 ∧
      (sysNoControl.recvmsg 3 4 (4 * 256) 0).oobn < (linuxAmd64.sizeofCmsghdr : Int) ∧
      (getConnection linuxAmd64 sysNoControl (some ⟨3, "socketpair-half1"⟩)).err
        = some (.newError ("getConnection: recvmsg returned wrong control type: " ++ fmtD 0)) ∧
      (getConnection linuxAmd64 sysNoControl (some ⟨3, "socketpair-half1"⟩)).err
        ≠ some (.newError ("getConnection: too short control message. Length: " ++ fmtD 0)) := by
  refine ⟨by decide, by decide, ?_, ?_⟩
  · simp [getConnection, sysNoControl, sysGood, readInt32, byteAt, linuxAmd64]
  · simp [getConnection, sysNoControl, sysGood, readInt32, byteAt, linuxAmd64]
    decide

/-- C4 amended: after a successful receive with `oobn` below `SizeofCmsghdr`,
`getConnection` returns the nil file and a non-nil error, which is the
too-short error when the header type tag is 1 and the wrong-control-type error
when it is not. -/
theorem getConnection_short_message (L : CmsgLayout) (sys : Sys) (localEnd : Option File)
    (herrno : (sys.recvmsg (fileFd localEnd) 4 (4 * 256) 0).errno = 0)
    (hoobn : (sys.recvmsg (fileFd localEnd) 4 (4 * 256) 0).oobn < (L.sizeofCmsghdr : Int)) :
    (getConnection L sys localEnd).f = none ∧
      (getConnection L sys localEnd).err =
        some (if readInt32 (sys.recvmsg (fileFd localEnd) 4 (4 * 256) 0).oob L.typeOffset = 1 then
          .newError ("getConnection: too short control message. Length: "
            ++ fmtD (sys.recvmsg (fileFd localEnd) 4 (4 * 256) 0).oobn)
        else
          .newError ("getConnection: recvmsg returned wrong control type: "
            ++ fmtD (readInt32 (sys.recvmsg (fileFd localEnd) 4 (4 * 256) 0).oob L.typeOffset))) := by
  have h1 : (sys.recvmsg (fileFd localEnd) 4 (4 * 256) 0).oobn ≤ (L.sizeofCmsghdr : Int) :=
    le_of_lt hoobn
  by_cases ht : readInt32 (sys.recvmsg (fileFd localEnd) 4 (4 * 256) 0).oob L.typeOffset = 1
  · simp [getConnection, herrno, ht, h1]
  · simp [getConnection, herrno, ht]

/-- Witness of the amended C4: with `oobn = 0` and a zero control buffer the
type tag is 0, and the error is the wrong-control-type error. -/
theorem getConnection_short_message_witness :
    (getConnection linuxAmd64 sysNoControl (some ⟨3, "socketpair-half1"⟩)).f = none ∧
      (getConnection linuxAmd64 sysNoControl (some ⟨3, "socketpair-half1"⟩)).err =
        some (if readInt32 (sysNoControl.recvmsg 3 4 (4 * 256) 0).oob linuxAmd64.typeOffset = 1 then
          .newError ("getConnection: too short control message. Length: "
            ++ fmtD (sysNoControl.recvmsg 3 4 (4 * 256) 0).oobn)
        else
          .newError ("getConnection: recvmsg returned wrong control type: "
            ++ fmtD (readInt32 (sysNoControl.recvmsg 3 4 (4 * 256) 0).oob linuxAmd64.typeOffset))) :=
  getConnection_short_message linuxAmd64 sysNoControl (some ⟨3, "socketpair-half1"⟩)
    (by decide) (by decide)

/-- C5 as stated fails: with type tag 1 and `oobn = 17`, one byte more than the
header size 16 and less than 16 + 4, `getConnection` returns a file (of
descriptor 7) and a nil error. -/
theorem one_payload_byte_accepted :
    (sysOneByte.recvmsg 3 4 (4 * 256) 0).errno = 0 ∧
      (sysOneByte.recvmsg 3 4 (4 * 256) 0).oobn < (linuxAmd64.sizeofCmsghdr : Int) + 4 ∧
      (getConnection linuxAmd64 sysOneByte (some ⟨3, "socketpair-half1"⟩)).f
        = some ⟨7, "<fuseConnection>"⟩ ∧
      (getConnection linuxAmd64 sysOneByte (some ⟨3, "socketpair-half1"⟩)).err = none := by
  refine ⟨by decide, by decide, ?_, ?_⟩ <;>
    simp [getConnection, sysOneByte, sysGood, readInt32, byteAt, linuxAmd64, NewFile]

/-- C5 amended: when `getConnection` returns a file and a nil error, the receive
succeeded, the header type tag was 1 and `oobn` exceeded `SizeofCmsghdr`; and
every successful receive with `oobn ≤ SizeofCmsghdr` ends with the nil file and
a non-nil error. -/
theorem getConnection_success_requires (L : CmsgLayout) (sys : Sys) (localEnd : Option File) :
    ((getConnection L sys localEnd).f ≠ none → (getConnection L sys localEnd).err = none →
      (sys.recvmsg (fileFd localEnd) 4 (4 * 256) 0).errno = 0 ∧
      readInt32 (sys.recvmsg (fileFd localEnd) 4 (4 * 256) 0).oob L.typeOffset = 1 ∧
      (L.sizeofCmsghdr : Int) < (sys.recvmsg (fileFd localEnd) 4 (4 * 256) 0).oobn) ∧
    ((sys.recvmsg (fileFd localEnd) 4 (4 * 256) 0).errno = 0 →
      (sys.recvmsg (fileFd localEnd) 4 (4 * 256) 0).oobn ≤ (L.sizeofCmsghdr : Int) →
      (getConnection L sys localEnd).f = none ∧ (getConnection L sys localEnd).err ≠ none) := by
  by_cases herrno : (sys.recvmsg (fileFd localEnd) 4 (4 * 256) 0).errno = 0
  · by_cases ht : readInt32 (sys.recvmsg (fileFd localEnd) 4 (4 * 256) 0).oob L.typeOffset = 1
    · by_cases hlen : (sys.recvmsg (fileFd localEnd) 4 (4 * 256) 0).oobn ≤ (L.sizeofCmsghdr : Int)
      · simp [getConnection, herrno, ht, hlen]
      · have hlt := not_le.mp hlen
        simp [getConnection, herrno, ht, hlen, hlt]
    · simp [getConnection, herrno, ht]
  · simp [getConnection, herrno]

/-- Witness of the amended C5: the run `sysGood` returns a file, and its
message has type tag 1 and `oobn = 20 > 16`; the run `sysNoControl`, whose
`oobn` is 0, is rejected. -/
theorem getConnection_success_requires_witness :
    ((sysGood.recvmsg 3 4 (4 * 256) 0).errno = 0 ∧
      readInt32 (sysGood.recvmsg 3 4 (4 * 256) 0).oob linuxAmd64.typeOffset = 1 ∧
      (linuxAmd64.sizeofCmsghdr : Int) < (sysGood.recvmsg 3 4 (4 * 256) 0).oobn) ∧
    ((getConnection linuxAmd64 sysNoControl (some ⟨3, "socketpair-half1"⟩)).f = none ∧
      (getConnection linuxAmd64 sysNoControl (some ⟨3, "socketpair-half1"⟩)).err ≠ none) :=
  ⟨(getConnection_success_requires linuxAmd64 sysGood (some ⟨3, "socketpair-half1"⟩)).1
      (by simp [getConnection, sysGood, readInt32, byteAt, linuxAmd64, NewFile, rightsMessage])
      (by simp [getConnection, sysGood, readInt32, byteAt, linuxAmd64, NewFile, rightsMessage]),
   (getConnection_success_requires linuxAmd64 sysNoControl (some ⟨3, "socketpair-half1"⟩)).2
      (by decide) (by decide)⟩

/-- C6: after a successful receive whose header type tag is not 1,
`getConnection` returns the nil file and the wrong-control-type error, whatever
the out-of-band length and the embedded descriptor are. -/
theorem getConnection_wrong_type (L : CmsgLayout) (sys : Sys) (localEnd : Option File)
    (herrno : (sys.recvmsg (fileFd localEnd) 4 (4 * 256) 0).errno = 0)
    (htype : readInt32 (sys.recvmsg (fileFd localEnd) 4 (4 * 256) 0).oob L.typeOffset ≠ 1) :
    (getConnection L sys localEnd).f = none ∧
      (getConnection L sys localEnd).err =
        some (.newError ("getConnection: recvmsg returned wrong control type: "
          ++ fmtD (readInt32 (sys.recvmsg (fileFd localEnd) 4 (4 * 256) 0).oob L.typeOffset))) := by
  simp [getConnection, herrno, htype]

/-- Witness of C6: a message of type tag 2 is rejected with the
wrong-control-type error. -/
theorem getConnection_wrong_type_witness :
    (getConnection linuxAmd64 sysWrongType (some ⟨3, "socketpair-half1"⟩)).f = none ∧
      (getConnection linuxAmd64 sysWrongType (some ⟨3, "socketpair-half1"⟩)).err =
        some (.newError ("getConnection: recvmsg returned wrong control type: "
          ++ fmtD (readInt32 (sysWrongType.recvmsg 3 4 (4 * 256) 0).oob linuxAmd64.typeOffset))) :=
  getConnection_wrong_type linuxAmd64 sysWrongType (some ⟨3, "socketpair-half1"⟩)
    (by decide) (by decide)

/-! ## Theorems about `mount` -/

/-- The call `Socketpair("unixgram")` made by `mount` never panics. -/
theorem Socketpair_unixgram (sys : Sys) :
    Socketpair sys "unixgram" =
      .ok (if (sys.socketpair AF_UNIX SOCK_SEQPACKET 0).2 ≠ 0 then
          ⟨none, none, some (.syscallError "socketpair" (sys.socketpair AF_UNIX SOCK_SEQPACKET 0).2),
            [Event.socketpair AF_UNIX SOCK_SEQPACKET 0]⟩
        else
          ⟨NewFile (sys.socketpair AF_UNIX SOCK_SEQPACKET 0).1.1 "socketpair-half1",
            NewFile (sys.socketpair AF_UNIX SOCK_SEQPACKET 0).1.2 "socketpair-half2", none,
            [Event.socketpair AF_UNIX SOCK_SEQPACKET 0]⟩) := by
  unfold Socketpair
  by_cases h : (sys.socketpair AF_UNIX SOCK_SEQPACKET 0).2 = 0 <;> simp [h]

/-- No deferred close is a receive. -/
theorem deferredCloses_no_recvmsg (a b : Option File) :
    ∀ e ∈ deferredCloses a b, e.isRecvmsg = false := by
  intro e he
  cases a <;> cases b <;> simp [deferredCloses] at he <;>
    (try rcases he with he | he) <;> subst_vars <;> rfl

/-- C7: when the socket pair is created, the working directory (if needed) is
obtained, the helper starts, the wait succeeds and the helper's exit status is
`c ≠ 0`, `mount` returns the nil file and the error
`fusermount exited with code c`, and its trace holds no receive. -/
theorem mount_helper_nonzero_exit (L : CmsgLayout) (sys : Sys) (mountBinary : String)
    (mountPoint options : String) (c : Int)
    (hsock : (sys.socketpair AF_UNIX SOCK_SEQPACKET 0).2 = 0)
    (hwd : IsAbs (Clean mountPoint) = true ∨ sys.getwd.2 = none)
    (hstart : ∀ name argv env files, (sys.startProcess name argv env files).2 = none)
    (hwait : ∀ pid opts, sys.wait pid opts = (c, none))
    (hc : c ≠ 0) :
    ∃ r, mount L sys mountBinary mountPoint options = .ok r ∧ r.f = none ∧
      r.err = some (.newError ("fusermount exited with code " ++ fmtD c ++ "\n")) ∧
      ∀ e ∈ r.trace, e.isRecvmsg = false := by
  have hcl := deferredCloses_no_recvmsg
    (NewFile (sys.socketpair AF_UNIX SOCK_SEQPACKET 0).1.1 "socketpair-half1")
    (NewFile (sys.socketpair AF_UNIX SOCK_SEQPACKET 0).1.2 "socketpair-half2")
  have hguard : ¬ ((!IsAbs (Clean mountPoint)) = true ∧ sys.getwd.2 ≠ none) := by
    rcases hwd with h | h
    · simp [h]
    · simp [h]
  unfold mount
  rw [Socketpair_unixgram]
  simp only [hsock, ne_eq, not_true_eq_false, if_false, hguard, hstart, hwait, hc,
    not_false_eq_true, if_true]
  refine ⟨_, rfl, rfl, rfl, ?_⟩
  intro e he
  simp only [List.mem_append, List.mem_singleton] at he
  rcases he with ((he | he) | he) | he
  · split at he
    · simp only [List.mem_append, List.mem_singleton] at he
      rcases he with he | he <;> subst he <;> rfl
    · simp only [List.mem_singleton] at he
      subst he; rfl
  · subst he; rfl
  · subst he; rfl
  · exact hcl e he

/-- Witness of C7: in the run `sysHelperFails` the helper exits with status 1. -/
theorem mount_helper_nonzero_exit_witness :
    ∃ r, mount linuxAmd64 sysHelperFails "/bin/fusermount" "/mnt/fuse" "" = .ok r ∧ r.f = none ∧
      r.err = some (.newError ("fusermount exited with code " ++ fmtD 1 ++ "\n")) ∧
      ∀ e ∈ r.trace, e.isRecvmsg = false :=
  mount_helper_nonzero_exit linuxAmd64 sysHelperFails "/bin/fusermount" "/mnt/fuse" "" 1
    (by decide) (Or.inl (by decide)) (fun _ _ _ _ => rfl) (fun _ _ => rfl) (by decide)

/-- C2, the code at two failing inputs: when `recvmsg` fails, and when the
mount point is relative and `os.Getwd` fails, `mount` returns the nil file
together with the nil error. -/
theorem mount_returns_nil_file_nil_error :
    mount linuxAmd64 sysRecvFails "/bin/fusermount" "/mnt/fuse" "" =
      .ok ⟨none, "/mnt/fuse", none,
        [Event.socketpair 1 5 0,
          Event.startProcess "/bin/fusermount" ["/bin/fusermount", "/mnt/fuse"]
            ["_FUSE_COMMFD=3"] [some 0, some 1, some 2, some 4],
          Event.wait 1234 0, Event.recvmsg 3 4 1024 0, Event.close 4, Event.close 3]⟩ ∧
    mount linuxAmd64 sysGetwdFails "/bin/fusermount" "sub/dir" "" =
      .ok ⟨none, "", none,
        [Event.socketpair 1 5 0, Event.getwd, Event.close 4, Event.close 3]⟩ := by
  constructor <;> rfl

/-! ### The mount point -/

theorem resolvedMountPoint_abs_clean (cwd mountPoint : String) (habs : IsAbs cwd = true) :
    IsAbs (resolvedMountPoint cwd mountPoint) = true ∧
      Clean (resolvedMountPoint cwd mountPoint) = resolvedMountPoint cwd mountPoint := by
  unfold resolvedMountPoint
  by_cases h : IsAbs (Clean mountPoint) = true
  · rw [if_pos h]
    exact ⟨h, Clean_idem _⟩
  · rw [if_neg h]
    exact ⟨Clean_abs _ (Join_abs _ _ habs), Clean_idem _⟩

/-- C8: when the socket pair is created and `os.Getwd` answers an absolute
`cwd`, the mount point `M` computed by `mount` (`Clean(p)` when that is
absolute, `Clean(Join(cwd, Clean(p)))` otherwise) is absolute and satisfies
`Clean(M) = M`; `M` is the second argument of the helper's command line, and
the returned mount point is `M` whenever a file is returned (it is `M` or still
empty otherwise).  For `p = "sub/dir"` and `cwd = "/home/user"`, `M` is
`"/home/user/sub/dir"`. -/
theorem mount_point_absolute_clean (L : CmsgLayout) (sys : Sys) (mountBinary : String)
    (mountPoint options cwd : String)
    (hsock : (sys.socketpair AF_UNIX SOCK_SEQPACKET 0).2 = 0)
    (hwd : sys.getwd = (cwd, none)) (habs : IsAbs cwd = true) :
    IsAbs (resolvedMountPoint cwd mountPoint) = true ∧
    Clean (resolvedMountPoint cwd mountPoint) = resolvedMountPoint cwd mountPoint ∧
    resolvedMountPoint "/home/user" "sub/dir" = "/home/user/sub/dir" ∧
    ∃ r, mount L sys mountBinary mountPoint options = .ok r ∧
      (∃ args env files, Event.startProcess mountBinary
        (mountBinary :: resolvedMountPoint cwd mountPoint :: args) env files ∈ r.trace) ∧
      (r.finalMountPoint = resolvedMountPoint cwd mountPoint ∨ r.finalMountPoint = "") ∧
      (r.f ≠ none → r.finalMountPoint = resolvedMountPoint cwd mountPoint) := by
  refine ⟨(resolvedMountPoint_abs_clean cwd mountPoint habs).1,
    (resolvedMountPoint_abs_clean cwd mountPoint habs).2, by decide, ?_⟩
  have hg : sys.getwd.2 = none := by rw [hwd]
  have hcwd : sys.getwd.1 = cwd := by rw [hwd]
  have hM : (if (!IsAbs (Clean mountPoint)) = true then Clean (Join cwd (Clean mountPoint))
      else Clean mountPoint) = resolvedMountPoint cwd mountPoint := by
    unfold resolvedMountPoint
    cases IsAbs (Clean mountPoint) <;> rfl
  have hcmd : ∃ args, (if options ≠ "" then
        ([mountBinary, resolvedMountPoint cwd mountPoint] ++ ["-o"]) ++ [options]
      else [mountBinary, resolvedMountPoint cwd mountPoint])
      = mountBinary :: resolvedMountPoint cwd mountPoint :: args := by
    by_cases ho : options = ""
    · exact ⟨[], by simp [ho]⟩
    · exact ⟨["-o", options], by simp [ho]⟩
  obtain ⟨args, hargs⟩ := hcmd
  unfold mount
  rw [Socketpair_unixgram]
  simp only [hsock, ne_eq, not_true_eq_false, if_false, hg, and_false, hcwd, hM, hargs]
  split
  · exact ⟨_, rfl, ⟨args, ["_FUSE_COMMFD=3"], [some 0, some 1, some 2, Option.map File.fd
        (NewFile (sys.socketpair AF_UNIX SOCK_SEQPACKET 0).1.2 "socketpair-half2")], by simp⟩, Or.inr rfl, fun h => absurd rfl h⟩
  · split
    · exact ⟨_, rfl, ⟨args, ["_FUSE_COMMFD=3"], [some 0, some 1, some 2, Option.map File.fd
        (NewFile (sys.socketpair AF_UNIX SOCK_SEQPACKET 0).1.2 "socketpair-half2")], by simp⟩, Or.inr rfl, fun h => absurd rfl h⟩
    · split
      · exact ⟨_, rfl, ⟨args, ["_FUSE_COMMFD=3"], [some 0, some 1, some 2, Option.map File.fd
        (NewFile (sys.socketpair AF_UNIX SOCK_SEQPACKET 0).1.2 "socketpair-half2")], by simp⟩, Or.inr rfl, fun h => absurd rfl h⟩
      · exact ⟨_, rfl, ⟨args, ["_FUSE_COMMFD=3"], [some 0, some 1, some 2, Option.map File.fd
        (NewFile (sys.socketpair AF_UNIX SOCK_SEQPACKET 0).1.2 "socketpair-half2")], by simp⟩, Or.inl rfl, fun _ => rfl⟩

/-- Witness of C8: the run `sysGood`, whose working directory is `/home/user`,
with the relative mount point `sub/dir`. -/
theorem mount_point_absolute_clean_witness :
    IsAbs (resolvedMountPoint "/home/user" "sub/dir") = true ∧
    Clean (resolvedMountPoint "/home/user" "sub/dir") = resolvedMountPoint "/home/user" "sub/dir" ∧
    resolvedMountPoint "/home/user" "sub/dir" = "/home/user/sub/dir" ∧
    ∃ r, mount linuxAmd64 sysGood "/bin/fusermount" "sub/dir" "" = .ok r ∧
      (∃ args env files, Event.startProcess "/bin/fusermount"
        ("/bin/fusermount" :: resolvedMountPoint "/home/user" "sub/dir" :: args) env files
          ∈ r.trace) ∧
      (r.finalMountPoint = resolvedMountPoint "/home/user" "sub/dir" ∨ r.finalMountPoint = "") ∧
      (r.f ≠ none → r.finalMountPoint = resolvedMountPoint "/home/user" "sub/dir") :=
  mount_point_absolute_clean linuxAmd64 sysGood "/bin/fusermount" "sub/dir" "" "/home/user"
    (by decide) rfl (by decide)

/-! ## Theorems about `privilegedUnmount` -/

/-- C9: when the first two unmount attempts fail and the third succeeds,
`privilegedUnmount` returns nil after exactly the calls unmount, sleep 10 ms,
unmount, sleep 30 ms, unmount. -/
theorem privilegedUnmount_third_attempt_succeeds (unmountErrno : Nat → Int) (mountPoint : String)
    (h0 : unmountErrno 0 ≠ 0) (h1 : unmountErrno 1 ≠ 0) (h2 : unmountErrno 2 = 0) :
    privilegedUnmount unmountErrno mountPoint =
      ⟨none, [Event.unmount mountPoint 0, Event.sleep 10000000, Event.unmount mountPoint 0,
        Event.sleep 30000000, Event.unmount mountPoint 0]⟩ := by
  simp [privilegedUnmount, retryLoop, h0, h1, h2, wrapInt64]

/-- Witness of C9: errno 16 (`EBUSY`) twice, then success. -/
theorem privilegedUnmount_third_attempt_succeeds_witness :
    privilegedUnmount (fun k => if k < 2 then 16 else 0) "/mnt/fuse" =
      ⟨none, [Event.unmount "/mnt/fuse" 0, Event.sleep 10000000, Event.unmount "/mnt/fuse" 0,
        Event.sleep 30000000, Event.unmount "/mnt/fuse" 0]⟩ :=
  privilegedUnmount_third_attempt_succeeds (fun k => if k < 2 then 16 else 0) "/mnt/fuse"
    (by decide) (by decide) (by decide)

/-- C10: for every sequence of unmount results, `privilegedUnmount` makes one
attempt if the first succeeds, two if the first fails and the second succeeds,
and three otherwise, never more; it returns nil when one of these attempts
succeeds and the errno of the third attempt when all three fail. -/
theorem privilegedUnmount_attempts_and_result (unmountErrno : Nat → Int) (mountPoint : String) :
    unmountAttempts (privilegedUnmount unmountErrno mountPoint).trace ≤ 3 ∧
    unmountAttempts (privilegedUnmount unmountErrno mountPoint).trace =
      (if unmountErrno 0 = 0 then 1 else if unmountErrno 1 = 0 then 2 else 3) ∧
    (privilegedUnmount unmountErrno mountPoint).err =
      (if unmountErrno 0 = 0 then none else if unmountErrno 1 = 0 then none
        else if unmountErrno 2 = 0 then none else some (.errno (unmountErrno 2))) := by
  by_cases h0 : unmountErrno 0 = 0
  · simp [privilegedUnmount, retryLoop, h0, unmountAttempts, Event.isUnmount]
  · by_cases h1 : unmountErrno 1 = 0
    · simp [privilegedUnmount, retryLoop, h0, h1, unmountAttempts, Event.isUnmount]
    · by_cases h2 : unmountErrno 2 = 0
      · simp [privilegedUnmount, retryLoop, h0, h1, h2, unmountAttempts, Event.isUnmount]
      · simp [privilegedUnmount, retryLoop, h0, h1, h2, unmountAttempts, Event.isUnmount]

end Fuse
